import Mathlib

/-!
Shallow embedding of `src/legacyinstall.py` (Meowcorp-Group/modpacktools):
a Modrinth modpack installer.  Pure data is embedded directly; the
filesystem is an explicit association-list state, the network is a
function parameter, and `exit(1)` error paths become `Except`/`Option`
error values drawn from the spec's error taxonomy.
-/

set_option maxRecDepth 8192

namespace LegacyInstall

/-- A byte sequence (each entry is a byte, `< 256`). -/
abbrev Bytes := List Nat

/-! ### SHA-1 (`hashlib.sha1(data).hexdigest()`)

Executable SHA-1 over `Bytes`, words as `Nat` reduced mod `2 ^ 32`. -/

def MOD32 : Nat := 4294967296

/-- 32-bit left rotation (argument assumed `< 2 ^ 32`). -/
def rotl (n x : Nat) : Nat := ((x <<< n) % MOD32) ||| (x >>> (32 - n))

/-- One SHA-1 compression round, `i` the round index, `wi` the schedule word. -/
def sha1Round (i wi : Nat) : Nat × Nat × Nat × Nat × Nat → Nat × Nat × Nat × Nat × Nat
  | (a, b, c, d, e) =>
    let f :=
      if i < 20 then (b &&& c) ||| ((b ^^^ 4294967295) &&& d)
      else if i < 40 then b ^^^ c ^^^ d
      else if i < 60 then (b &&& c) ||| (b &&& d) ||| (c &&& d)
      else b ^^^ c ^^^ d
    let k :=
      if i < 20 then 1518500249
      else if i < 40 then 1859775393
      else if i < 60 then 2400959708
      else 3395469782
    ((rotl 5 a + f + e + k + wi) % MOD32, a, rotl 30 b, c, d)

def sha1Rounds : Nat → List Nat → Nat × Nat × Nat × Nat × Nat → Nat × Nat × Nat × Nat × Nat
  | _, [], st => st
  | i, w :: ws, st => sha1Rounds (i + 1) ws (sha1Round i w st)

/-- Extend the 16-word schedule by `n` words; `acc` holds the schedule
reversed (most recent word first), so `w[i-3]` is `acc.getD 2 0`, etc. -/
def sha1Extend : Nat → List Nat → List Nat
  | 0, acc => acc
  | n + 1, acc =>
    let x := rotl 1 (acc.getD 2 0 ^^^ acc.getD 7 0 ^^^ acc.getD 13 0 ^^^ acc.getD 15 0)
    sha1Extend n (x :: acc)

/-- Big-endian 32-bit words from bytes. -/
def bytesToWords : Bytes → List Nat
  | b0 :: b1 :: b2 :: b3 :: rest => (((b0 * 256 + b1) * 256 + b2) * 256 + b3) :: bytesToWords rest
  | _ => []

/-- Process one 64-byte chunk. -/
def sha1Chunk (h : Nat × Nat × Nat × Nat × Nat) (chunk : Bytes) : Nat × Nat × Nat × Nat × Nat :=
  let ws := (sha1Extend 64 (bytesToWords chunk).reverse).reverse
  let r := sha1Rounds 0 ws h
  ((h.1 + r.1) % MOD32, (h.2.1 + r.2.1) % MOD32, (h.2.2.1 + r.2.2.1) % MOD32,
   (h.2.2.2.1 + r.2.2.2.1) % MOD32, (h.2.2.2.2 + r.2.2.2.2) % MOD32)

/-- Split into 64-byte chunks; `fuel` bounds the recursion structurally. -/
def chunksOf64 : Nat → Bytes → List Bytes
  | 0, _ => []
  | _, [] => []
  | fuel + 1, msg => msg.take 64 :: chunksOf64 fuel (msg.drop 64)

/-- The 8-byte big-endian encoding of `n` (the bit length). -/
def lengthBytes (n : Nat) : Bytes :=
  [n / 72057594037927936 % 256, n / 281474976710656 % 256, n / 1099511627776 % 256,
   n / 4294967296 % 256, n / 16777216 % 256, n / 65536 % 256, n / 256 % 256, n % 256]

/-- SHA-1 padding: `0x80`, zeros to 56 mod 64, then the 64-bit bit length. -/
def sha1Pad (msg : Bytes) : Bytes :=
  msg ++ 128 :: (List.replicate ((119 - msg.length % 64) % 64) 0 ++ lengthBytes (msg.length * 8))

def hexDigit (n : Nat) : Char :=
  if n = 0 then '0' else if n = 1 then '1' else if n = 2 then '2' else if n = 3 then '3'
  else if n = 4 then '4' else if n = 5 then '5' else if n = 6 then '6' else if n = 7 then '7'
  else if n = 8 then '8' else if n = 9 then '9' else if n = 10 then 'a' else if n = 11 then 'b'
  else if n = 12 then 'c' else if n = 13 then 'd' else if n = 14 then 'e' else 'f'

/-- Lowercase hex of a 32-bit word, big-endian nibbles. -/
def hex8 (n : Nat) : List Char :=
  [hexDigit (n / 268435456 % 16), hexDigit (n / 16777216 % 16), hexDigit (n / 1048576 % 16),
   hexDigit (n / 65536 % 16), hexDigit (n / 4096 % 16), hexDigit (n / 256 % 16),
   hexDigit (n / 16 % 16), hexDigit (n % 16)]

/-- `hashlib.sha1(msg).hexdigest()`: the lowercase 40-char hex digest. -/
def sha1hex (msg : Bytes) : String :=
  let padded := sha1Pad msg
  let hs := (chunksOf64 padded.length padded).foldl sha1Chunk
    (1732584193, 4023233417, 2562383102, 271733878, 3285377520)
  String.mk (hex8 hs.1 ++ hex8 hs.2.1 ++ hex8 hs.2.2.1 ++ hex8 hs.2.2.2.1 ++ hex8 hs.2.2.2.2)


/-! ### URL host extraction (`urllib.parse.urlparse(url).netloc`)

Mirrors CPython `urlsplit`: strip a leading `scheme:` when the prefix is a
well-formed scheme, then, when the rest starts with `//`, the netloc is
everything up to the first `/`, `?` or `#`.  Case is preserved, ports and
userinfo are kept. -/

def isSchemeChar (c : Char) : Bool := c.isAlphanum || c == '+' || c == '-' || c == '.'

/-- Index of the first occurrence of `c` (`str.find(c)` when it succeeds). -/
def findCharIdx (c : Char) : List Char → Option Nat
  | [] => none
  | x :: xs => if x == c then some 0 else (findCharIdx c xs).map (· + 1)

/-- Drop a leading `scheme:` the way `urlsplit` does. -/
def dropScheme (url : List Char) : List Char :=
  match findCharIdx ':' url with
  | none => url
  | some i =>
    if i != 0 && (url.headD ' ').isAlpha && ((url.drop 1).take (i - 1)).all isSchemeChar
    then url.drop (i + 1)
    else url

/-- `urlparse(url).netloc`. -/
def netloc (url : String) : String :=
  match dropScheme url.toList with
  | '/' :: '/' :: r => String.mk (r.takeWhile (fun c => !(c == '/' || c == '?' || c == '#')))
  | _ => ""


/-! ### Paths and `pathlib` helpers

Filesystem paths are component lists (what `pathlib.PurePath.parts` yields,
relative to the process working directory); `Path#` joining is list append. -/

abbrev FPath := List String

/-- Split a character list at every occurrence of `sep`. -/
def splitChar (sep : Char) : List Char → List (List Char)
  | [] => [[]]
  | c :: cs =>
    let r := splitChar sep cs
    if c == sep then [] :: r
    else
      match r with
      | [] => [[c]]
      | h :: t => (c :: h) :: t

/-- Components of a path string (`pathlib` collapses empty components). -/
def toPath (s : String) : FPath :=
  ((splitChar '/' s.toList).map String.mk).filter (fun c => c != "")

/-- `Path.name`: the final component. -/
def basename (p : String) : String := (toPath p).getLastD ""

/-- `Path.stem`: the final component without its last suffix
(`name[:i]` for `i = name.rfind('.')` when `0 < i < len(name) - 1`). -/
def stem (p : String) : String :=
  let name := basename p
  let cs := name.toList
  match findCharIdx '.' cs.reverse with
  | none => name
  | some ri =>
    let i := cs.length - 1 - ri
    if 0 < i ∧ i < cs.length - 1 then String.mk (cs.take i) else name


/-! ### Filesystem state

An explicit state: regular files as an association list from path to
content (first match wins, writes shadow), plus the set of directories. -/

structure FS where
  files : List (FPath × Bytes)
  dirs : List FPath
deriving DecidableEq

def FS.read (fs : FS) (p : FPath) : Option Bytes :=
  (fs.files.find? (fun e => e.1 == p)).map (·.2)

def FS.isFile (fs : FS) (p : FPath) : Bool :=
  (fs.files.find? (fun e => e.1 == p)).isSome

def FS.isDir (fs : FS) (p : FPath) : Bool := fs.dirs.contains p

/-- `Path.exists()`: true for a regular file or a directory. -/
def FS.pathExists (fs : FS) (p : FPath) : Bool := fs.isFile p || fs.isDir p

/-- Write `b` at `p` (create or overwrite the regular file). -/
def FS.write (fs : FS) (p : FPath) (b : Bytes) : FS :=
  ⟨(p, b) :: fs.files.filter (fun e => !(e.1 == p)), fs.dirs⟩

/-- All nonempty ancestors of a path, the path itself included. -/
def ancestorsOf (p : FPath) : List FPath :=
  (List.range p.length).map (fun i => p.take (i + 1))

/-- `Path.mkdir(parents=True, exist_ok=True)`. -/
def FS.mkdirp (fs : FS) (p : FPath) : FS := ⟨fs.files, ancestorsOf p ++ fs.dirs⟩

/-- The regular files below directory `dir`, as (relative path, content). -/
def FS.filesUnder (fs : FS) (dir : FPath) : List (FPath × Bytes) :=
  fs.files.filterMap (fun e =>
    match e.1.take dir.length == dir with
    | true => some (e.1.drop dir.length, e.2)
    | false => none)

/-- `shutil.copytree(src, dst, dirs_exist_ok=True)`: copy every regular
file below `src` to the corresponding path below `dst`. -/
def copytree (fs : FS) (src dst : FPath) : FS :=
  (fs.filesUnder src).foldl (fun a e => a.write (dst ++ e.1) e.2) fs

/-- `ZipFile.extractall(dir)`: write every archive member below `dir`. -/
def extractAll (fs : FS) (dir : FPath) (entries : List (FPath × Bytes)) : FS :=
  entries.foldl (fun a e => (a.mkdirp ((dir ++ e.1).dropLast)).write (dir ++ e.1) e.2) fs

/-! ### Data model and error taxonomy -/

/-- One record of the manifest's `files` array: `downloads` (URL strings,
only the first is used), `path` (relative install path), `hashes`
(algorithm name to hex digest; a JSON object, modelled as an association
list with unique keys). -/
structure FileEntry where
  downloads : List String
  path : String
  hashes : List (String × String)
deriving DecidableEq

/-- The parsed `modrinth.index.json`. -/
structure Manifest where
  formatVersion : Int
  files : List FileEntry
deriving DecidableEq

/-- A resolved download unit (`{'url': ..., 'path': ..., 'hash': ...}`). -/
structure Resource where
  url : String
  path : String
  hash : String
deriving DecidableEq

/-- The spec's error taxonomy.  Every `print(...); exit(1)` site maps to
one constructor.  `PyError` stands for an uncaught Python exception
(`IndexError`/`KeyError` on a malformed entry, or `shutil.copy` failing),
which also terminates the process with a non-zero status.  `OverlayFailed`
is the `except` branch around `shutil.copytree`; the pure model's copy
cannot fail, so it is never produced here. -/
inductive Err where
  | NotFound
  | InvalidArchive
  | NotModpack
  | UnsupportedVersion
  | UnapprovedDomain
  | DownloadFailed
  | HashMismatch
  | OverlayFailed
  | PyError
deriving DecidableEq

deriving instance DecidableEq for Except

/-! ### Configuration and derived paths -/

/-- `ACCEPTED_DOMAINS` from the source. -/
def ACCEPTED_DOMAINS : List String :=
  ["cdn.modrinth.com", "github.com", "raw.githubusercontent.com", "gitlab.com"]

/-- `cwd = Path.cwd() / 'modpacktools' / 'legacyinstall'`; paths are taken
relative to the process working directory. -/
def cwdPath : FPath := ["modpacktools", "legacyinstall"]

/-- `cwd / modpack.stem / 'pack'`. -/
def packDirPath (mp : String) : FPath := cwdPath ++ [stem mp, "pack"]

/-- `cwd / modpack.stem / 'install'`. -/
def installDirPath (mp : String) : FPath := cwdPath ++ [stem mp, "install"]

/-- `modpack_dir / 'modrinth.index.json'`. -/
def indexPath (mp : String) : FPath := packDirPath mp ++ ["modrinth.index.json"]

/-- `installDir / path` for a resource. -/
def destPath (mp : String) (r : Resource) : FPath := installDirPath mp ++ toPath r.path

/-! ### `loadModpack` -/

/-- The extraction step of `loadModpack`: if the pack directory already
exists, do nothing; otherwise create it and extract the archive into it. -/
def extractStep (mp : String) (zipEntries : List (FPath × Bytes)) (fs : FS) : FS :=
  if fs.pathExists (packDirPath mp) then fs
  else extractAll (fs.mkdirp (packDirPath mp)) (packDirPath mp) zipEntries

/-- The tail of `loadModpack`: locate `modrinth.index.json`, parse it
(`parse` stands for `json.load`), and enforce `formatVersion == 1`. -/
def readIndex (mp : String) (parse : Bytes → Option Manifest) (fs : FS) :
    Except Err (Manifest × FS) :=
  if !(fs.pathExists (indexPath mp)) then .error .NotModpack
  else
    match fs.read (indexPath mp) with
    | none => .error .PyError
    | some content =>
      match parse content with
      | none => .error .PyError
      | some data =>
        if data.formatVersion ≠ 1 then .error .UnsupportedVersion
        else .ok (data, fs)

/-- `loadModpack(modpack)`.  `isZip` stands for `zipfile.is_zipfile`
(a property of the archive bytes), `zipEntries` for the archive's
members, `parse` for `json.load`. -/
def loadModpack (mp : String) (isZip : Bool) (zipEntries : List (FPath × Bytes))
    (parse : Bytes → Option Manifest) (fs : FS) : Except Err (Manifest × FS) :=
  if !(fs.pathExists (toPath mp)) then .error .NotFound
  else if !isZip then .error .InvalidArchive
  else readIndex mp parse (extractStep mp zipEntries fs)

/-! ### `getMods` -/

/-- The body of `getMods`'s loop for one entry: first download URL,
install path, `sha1` hash, then the allow-list check on
`urlparse(url).netloc`. -/
def resolveEntry (file : FileEntry) : Except Err Resource :=
  match file.downloads.head? with
  | none => .error .PyError
  | some url =>
    let path := file.path
    match (file.hashes.find? (fun x => x.1 == "sha1")).map (·.2) with
    | none => .error .PyError
    | some hash =>
      if ACCEPTED_DOMAINS.contains (netloc url) then .ok ⟨url, path, hash⟩
      else .error .UnapprovedDomain

def resolveList : List FileEntry → Except Err (List Resource)
  | [] => .ok []
  | f :: fs =>
    match resolveEntry f with
    | .error e => .error e
    | .ok r =>
      match resolveList fs with
      | .error e => .error e
      | .ok rs => .ok (r :: rs)

/-- `getMods(data)`. -/
def getMods (data : Manifest) : Except Err (List Resource) := resolveList data.files

/-! ### `downloadMods`

The network is a function `net : url → Option bytes` (`none` is any
transport failure caught by the `except` branch).  The result triple is
(error if the run aborted, filesystem at termination, URLs fetched in
order). -/

def downloadGo (inst : FPath) (net : String → Option Bytes) :
    List Resource → FS → Option Err × FS × List String
  | [], fs => (none, fs, [])
  | r :: rs, fs =>
    let file := inst ++ toPath r.path
    let fs1 := fs.mkdirp file.dropLast
    if fs1.pathExists file then downloadGo inst net rs fs1
    else
      match net r.url with
      | none => (some .DownloadFailed, fs1, [r.url])
      | some data =>
        if sha1hex data = r.hash then
          let c := downloadGo inst net rs (fs1.write file data)
          (c.1, c.2.1, r.url :: c.2.2)
        else (some .HashMismatch, fs1, [r.url])

/-- `downloadMods(modpack, resources)`. -/
def downloadMods (mp : String) (net : String → Option Bytes)
    (resources : List Resource) (fs : FS) : Option Err × FS × List String :=
  downloadGo (installDirPath mp) net resources (fs.mkdirp (installDirPath mp))

/-! ### `copyOverrides` -/

/-- `pack / 'overrides'`. -/
def overridesPath (mp : String) : FPath := packDirPath mp ++ ["overrides"]

/-- `copyOverrides(modpack)`: skip when there is no overrides directory;
otherwise copy the overrides tree over the install tree, then copy
`modrinth.index.json` next to the installed files.  The manifest copy is
outside the `try` block, so its failure is an uncaught exception. -/
def copyOverrides (mp : String) (fs : FS) : Except Err FS :=
  if !(fs.pathExists (overridesPath mp)) then .ok fs
  else
    let fs1 := copytree fs (overridesPath mp) (installDirPath mp)
    match fs1.read (indexPath mp) with
    | none => .error .PyError
    | some c => .ok (fs1.write (installDirPath mp ++ ["modrinth.index.json"]) c)

/-! ### `main`

The interactive prompt is elided: `mp` is the already-cleaned archive
path string.  The second component is the list of URLs fetched over the
network during the whole run. -/

def main (mp : String) (isZip : Bool) (zipEntries : List (FPath × Bytes))
    (parse : Bytes → Option Manifest) (net : String → Option Bytes)
    (fs : FS) : Except Err FS × List String :=
  let fs0 := fs.mkdirp cwdPath
  match loadModpack mp isZip zipEntries parse fs0 with
  | .error e => (.error e, [])
  | .ok (data, fs1) =>
    match getMods data with
    | .error e => (.error e, [])
    | .ok resources =>
      match downloadMods mp net resources fs1 with
      | (some e, _, log) => (.error e, log)
      | (none, fs2, log) =>
        match copyOverrides mp fs2 with
        | .error e => (.error e, log)
        | .ok fs3 => (.ok fs3, log)

/-! ### Concrete filesystem states used as witnesses and counterexamples -/

/-- A state whose install tree already contains `mods/a.jar`. -/
def fs5c : FS := ⟨[(cwdPath ++ ["Pack", "install", "mods", "a.jar"], [7])], []⟩

/-- A state with the modpack archive present and its pack directory
already extracted. -/
def fs6c : FS := ⟨[(["Pack.zip"], [])], [cwdPath ++ ["Pack", "pack"]]⟩

/-- Like `fs6c` but with a manifest file inside the pack directory. -/
def fs7c : FS :=
  ⟨[(["Pack.zip"], []), (cwdPath ++ ["Pack", "pack", "modrinth.index.json"], [1])],
   [cwdPath ++ ["Pack", "pack"]]⟩

/-- A state after extraction and download with NO overrides directory:
the pack holds the manifest, the install tree one downloaded file. -/
def fs8c : FS :=
  ⟨[(cwdPath ++ ["Pack", "pack", "modrinth.index.json"], [2]),
    (cwdPath ++ ["Pack", "install", "mods", "a.jar"], [7])],
   [cwdPath ++ ["Pack", "pack"], cwdPath ++ ["Pack", "install"]]⟩

/-- A state WITH an overrides directory that itself contains a file named
`modrinth.index.json` (content `[1]`), while the pack manifest is `[2]`
and the install tree already holds `[0]` at that name. -/
def fs9c : FS :=
  ⟨[(cwdPath ++ ["Pack", "pack", "modrinth.index.json"], [2]),
    (cwdPath ++ ["Pack", "pack", "overrides", "modrinth.index.json"], [1]),
    (cwdPath ++ ["Pack", "install", "modrinth.index.json"], [0])],
   [cwdPath ++ ["Pack", "pack"], cwdPath ++ ["Pack", "pack", "overrides"],
    cwdPath ++ ["Pack", "install"]]⟩

/-- A state with an overrides directory holding `config/x.cfg` (content
`[9]`), the pack manifest `[2]`, and an install tree where `config/x.cfg`
was downloaded with content `[7]`. -/
def fs9w : FS :=
  ⟨[(cwdPath ++ ["Pack", "pack", "modrinth.index.json"], [2]),
    (cwdPath ++ ["Pack", "pack", "overrides", "config", "x.cfg"], [9]),
    (cwdPath ++ ["Pack", "install", "config", "x.cfg"], [7])],
   [cwdPath ++ ["Pack", "pack"], cwdPath ++ ["Pack", "pack", "overrides"],
    cwdPath ++ ["Pack", "install"]]⟩

/-! ### Sanity checks: standard SHA-1 test vectors, `urlparse` and
`pathlib` behaviours of the embedded library functions -/

lemma sha1hex_empty : sha1hex [] = "da39a3ee5e6b4b0d3255bfef95601890afd80709" := by
  decide

lemma sha1hex_abc : sha1hex [97, 98, 99] = "a9993e364706816aba3e25717850c26c9cd0d89d" := by
  decide

lemma netloc_plain : netloc "https://cdn.modrinth.com/data/abc/mod.jar" =
    "cdn.modrinth.com" := by
  decide

lemma netloc_userinfo : netloc "https://user@cdn.modrinth.com/a.jar" =
    "user@cdn.modrinth.com" := by
  decide

lemma stem_zip : stem "some/dir/Pack.zip" = "Pack" := by decide

/-! ### Helper lemmas about the filesystem state -/

lemma mkdirp_files (fs : FS) (p : FPath) : (fs.mkdirp p).files = fs.files := rfl

lemma mkdirp_read (fs : FS) (p q : FPath) : (fs.mkdirp p).read q = fs.read q := rfl

lemma mkdirp_isFile (fs : FS) (p q : FPath) : (fs.mkdirp p).isFile q = fs.isFile q := rfl

lemma pathExists_mkdirp_of (fs : FS) (p q : FPath) (h : fs.pathExists q = true) :
    (fs.mkdirp p).pathExists q = true := by
  simp only [FS.pathExists, FS.isFile, FS.isDir, FS.mkdirp, Bool.or_eq_true,
    List.contains, List.elem_eq_mem, decide_eq_true_eq, List.mem_append] at h ⊢
  tauto

lemma read_write_self (fs : FS) (p : FPath) (b : Bytes) : (fs.write p b).read p = some b := by
  simp [FS.write, FS.read, List.find?]

lemma find?_filter_ne (l : List (FPath × Bytes)) (p q : FPath) (h : q ≠ p) :
    (l.filter (fun e => !(e.1 == p))).find? (fun e => e.1 == q) =
      l.find? (fun e => e.1 == q) := by
  induction l with
  | nil => rfl
  | cons e t ih =>
    by_cases hep : e.1 = p
    · have h1 : (!(e.1 == p)) = false := by simp [hep]
      have h2 : (e.1 == q) = false := by simp [hep]; exact Ne.symm h
      rw [List.filter_cons, if_neg (by simp [h1])]
      simp only [List.find?, h2, ih]
    · have h1 : (!(e.1 == p)) = true := by simp [hep]
      by_cases heq : e.1 = q
      · have h2 : (e.1 == q) = true := by simp [heq]
        rw [List.filter_cons, if_pos h1]
        simp only [List.find?, h2]
      · have h2 : (e.1 == q) = false := by simp [heq]
        rw [List.filter_cons, if_pos h1]
        simp only [List.find?, h2, ih]

lemma read_write_other (fs : FS) (p q : FPath) (b : Bytes) (h : q ≠ p) :
    (fs.write p b).read q = fs.read q := by
  have hpq : (p == q) = false := by simp [Ne.symm h]
  simp [FS.write, FS.read, List.find?, hpq, find?_filter_ne fs.files p q h]

lemma pathExists_write_of (fs : FS) (p q : FPath) (b : Bytes)
    (h : fs.pathExists q = true) : (fs.write p b).pathExists q = true := by
  by_cases hqp : q = p
  · subst hqp
    simp [FS.pathExists, FS.isFile, read_write_self, FS.write, List.find?]
  · simp only [FS.pathExists, Bool.or_eq_true] at h ⊢
    rcases h with h | h
    · left
      simp only [FS.isFile] at h ⊢
      rw [show (fs.write p b).files.find? (fun e => e.1 == q) =
            fs.files.find? (fun e => e.1 == q) from ?_]
      · exact h
      · have hpq : (p == q) = false := by simp [Ne.symm hqp]
        simp [FS.write, List.find?, hpq, find?_filter_ne fs.files p q hqp]
    · right
      exact h

lemma read_none_of_pathExists_false (fs : FS) (p : FPath)
    (h : fs.pathExists p = false) : fs.read p = none := by
  simp only [FS.pathExists, Bool.or_eq_false_iff, FS.isFile] at h
  cases hf : fs.files.find? (fun e => e.1 == p) with
  | none => simp [FS.read, hf]
  | some e => rw [hf] at h; simp at h

lemma pathExists_of_read_some (fs : FS) (p : FPath) (b : Bytes)
    (h : fs.read p = some b) : fs.pathExists p = true := by
  simp only [FS.pathExists, Bool.or_eq_true, FS.isFile]
  left
  simp only [FS.read] at h
  rcases Option.map_eq_some'.mp h with ⟨e, he, _⟩
  simp [he]

/-! ### Helper lemmas about `downloadGo` -/

/-- Processing a concatenation: run the first batch; on success continue
with the second from the reached state, concatenating fetch logs. -/
lemma downloadGo_append (inst : FPath) (net : String → Option Bytes)
    (xs ys : List Resource) (fs : FS) :
    downloadGo inst net (xs ++ ys) fs =
      (match (downloadGo inst net xs fs).1 with
       | some e => (some e, (downloadGo inst net xs fs).2.1, (downloadGo inst net xs fs).2.2)
       | none =>
         ((downloadGo inst net ys (downloadGo inst net xs fs).2.1).1,
          (downloadGo inst net ys (downloadGo inst net xs fs).2.1).2.1,
          (downloadGo inst net xs fs).2.2 ++
            (downloadGo inst net ys (downloadGo inst net xs fs).2.1).2.2)) := by
  induction xs generalizing fs with
  | nil => simp [downloadGo]
  | cons r rs ih =>
    simp only [List.cons_append, downloadGo, List.append_eq]
    by_cases hex : (FS.mkdirp fs (inst ++ toPath r.path).dropLast).pathExists
        (inst ++ toPath r.path) = true
    · simp only [hex, if_true, ih]
    · simp only [Bool.not_eq_true] at hex
      simp only [hex, Bool.false_eq_true, if_false]
      cases hnet : net r.url with
      | none => simp
      | some data =>
        by_cases hh : sha1hex data = r.hash
        · simp only [hh, if_true, ih]
          cases (downloadGo inst net rs
              ((FS.mkdirp fs (inst ++ toPath r.path).dropLast).write
                (inst ++ toPath r.path) data)).1 <;> simp
        · simp [hh]

/-- A path that exists before a `downloadGo` run still exists afterwards,
with its content unchanged (the verifier never overwrites). -/
lemma downloadGo_preserves (inst : FPath) (net : String → Option Bytes)
    (rs : List Resource) (fs : FS) (p : FPath) (h : fs.pathExists p = true) :
    (downloadGo inst net rs fs).2.1.read p = fs.read p ∧
      (downloadGo inst net rs fs).2.1.pathExists p = true := by
  induction rs generalizing fs with
  | nil => exact ⟨rfl, h⟩
  | cons r rs ih =>
    simp only [downloadGo]
    have h1 : (fs.mkdirp (inst ++ toPath r.path).dropLast).pathExists p = true :=
      pathExists_mkdirp_of fs _ p h
    by_cases hex : (FS.mkdirp fs (inst ++ toPath r.path).dropLast).pathExists
        (inst ++ toPath r.path) = true
    · simp only [hex, if_true]
      exact ih _ h1
    · simp only [Bool.not_eq_true] at hex
      simp only [hex, Bool.false_eq_true, if_false]
      cases hnet : net r.url with
      | none => exact ⟨rfl, h1⟩
      | some data =>
        by_cases hh : sha1hex data = r.hash
        · simp only [hh, if_true]
          have hne : p ≠ inst ++ toPath r.path := by
            intro hcontra
            rw [hcontra] at h1
            rw [h1] at hex
            exact Bool.true_eq_false.mp hex
          have h2 : ((fs.mkdirp (inst ++ toPath r.path).dropLast).write
              (inst ++ toPath r.path) data).pathExists p = true :=
            pathExists_write_of _ _ _ _ h1
          have := ih ((fs.mkdirp (inst ++ toPath r.path).dropLast).write
              (inst ++ toPath r.path) data) h2
          refine ⟨?_, this.2⟩
          rw [this.1, read_write_other _ _ _ _ hne]
          rfl
        · simp only [if_neg hh]
          exact ⟨rfl, h1⟩

/-! ### Helper lemmas about `copytree` -/

lemma find?_congr_pred (l : List (FPath × Bytes)) (p q : FPath × Bytes → Bool)
    (h : ∀ a, p a = q a) : l.find? p = l.find? q := by
  induction l with
  | nil => rfl
  | cons e t ih => rw [List.find?_cons, List.find?_cons, h e, ih]

/-- Reading after a fold of writes below `dst`: the last matching write
wins; otherwise the original filesystem answers. -/
lemma read_foldl_write (l : List (FPath × Bytes)) (dst : FPath) (p : FPath) :
    ∀ fs : FS, (l.foldl (fun a e => a.write (dst ++ e.1) e.2) fs).read p =
      (match l.reverse.find? (fun e => dst ++ e.1 == p) with
       | some e => some e.2
       | none => fs.read p) := by
  induction l with
  | nil => intro fs; rfl
  | cons e t ih =>
    intro fs
    rw [List.foldl_cons, ih, List.reverse_cons, List.find?_append]
    cases hft : t.reverse.find? (fun x => dst ++ x.1 == p) with
    | some x => simp
    | none =>
      by_cases hp : dst ++ e.1 = p
      · have h2 : (dst ++ e.1 == p) = true := by simp [hp]
        rw [← hp, read_write_self]
        simp [List.find?, h2]
      · have h2 : (dst ++ e.1 == p) = false := by simp [hp]
        rw [read_write_other _ _ _ _ (Ne.symm hp)]
        simp [List.find?, h2]

/-- Under a duplicate-free file table, searching the copied entries for a
relative path agrees with reading the source tree. -/
lemma assoc_filesUnder (files : List (FPath × Bytes)) (src rel : FPath)
    (hnodup : (files.map Prod.fst).Nodup) :
    ((files.filterMap (fun e =>
        match e.1.take src.length == src with
        | true => some (e.1.drop src.length, e.2)
        | false => none)).reverse.find?
          (fun e => e.1 == rel)).map (·.2) =
      (files.find? (fun e => e.1 == src ++ rel)).map (·.2) := by
  induction files with
  | nil => rfl
  | cons e t ih =>
    have hnd : (t.map Prod.fst).Nodup := (List.nodup_cons.mp hnodup).2
    have hmem : e.1 ∉ t.map Prod.fst := (List.nodup_cons.mp hnodup).1
    by_cases hkey : e.1 = src ++ rel
    · have hcond : (e.1.take src.length == src) = true := by
        rw [hkey]; simp [List.take_left]
      have hdrop : e.1.drop src.length = rel := by rw [hkey]; exact List.drop_left src rel
      have hnone : (t.filterMap (fun e =>
          match e.1.take src.length == src with
          | true => some (e.1.drop src.length, e.2)
          | false => none)).reverse.find? (fun e => e.1 == rel) = none := by
        rw [List.find?_eq_none]
        intro x hx hpx
        rw [List.mem_reverse, List.mem_filterMap] at hx
        obtain ⟨a, ha, hax⟩ := hx
        cases hc : (a.1.take src.length == src) with
        | false => rw [hc] at hax; exact Option.noConfusion hax
        | true =>
          rw [hc] at hax
          have h1 : a.1.drop src.length = x.1 := congrArg Prod.fst (Option.some.inj hax)
          have h2 : a.1 = src ++ rel := by
            have hx1 : x.1 = rel := by simpa using hpx
            have ht : a.1.take src.length = src := by simpa using hc
            calc a.1 = a.1.take src.length ++ a.1.drop src.length :=
                  (List.take_append_drop _ _).symm
              _ = src ++ rel := by rw [ht, h1, hx1]
          have hmem2 : a.1 ∈ t.map Prod.fst := List.mem_map_of_mem Prod.fst ha
          rw [h2, ← hkey] at hmem2
          exact hmem hmem2
      simp only [List.filterMap_cons, hcond, hdrop]
      rw [List.reverse_cons, List.find?_append, hnone]
      rw [List.find?_cons_of_pos t (show ((e.1 == src ++ rel) = true) from by simp [hkey])]
      simp [List.find?]
    · rw [List.find?_cons_of_neg t (show ¬((e.1 == src ++ rel) = true) from by simp [hkey])]
      cases hc : (e.1.take src.length == src) with
      | true =>
        have hrelne : e.1.drop src.length ≠ rel := by
          intro hcontra
          apply hkey
          have ht : e.1.take src.length = src := by simpa using hc
          calc e.1 = e.1.take src.length ++ e.1.drop src.length :=
                (List.take_append_drop _ _).symm
            _ = src ++ rel := by rw [ht, hcontra]
        have hb : (e.1.drop src.length == rel) = false := by simp [hrelne]
        simp only [List.filterMap_cons, hc]
        rw [List.reverse_cons, List.find?_append]
        rw [show ([(e.1.drop src.length, e.2)].find? (fun x => x.1 == rel)) = none from by
          simp [List.find?, hb]]
        rw [Option.or_none, ih hnd]
      | false =>
        simp only [List.filterMap_cons, hc]
        exact ih hnd

/-- Reading below the destination after `copytree`: a file present in the
source tree wins; otherwise the destination is untouched. -/
lemma read_copytree (fs : FS) (src dst rel : FPath)
    (hnodup : (fs.files.map Prod.fst).Nodup) :
    (copytree fs src dst).read (dst ++ rel) =
      (match fs.read (src ++ rel) with
       | some b => some b
       | none => fs.read (dst ++ rel)) := by
  unfold copytree
  rw [read_foldl_write]
  rw [find?_congr_pred ((fs.filesUnder src).reverse) _
    (fun e => e.1 == rel) (fun a => by
      show (dst ++ a.1 == dst ++ rel) = (a.1 == rel)
      by_cases h : a.1 = rel
      · simp [h]
      · have h1 : (dst ++ a.1 == dst ++ rel) = false := by
          simp only [beq_eq_false_iff_ne, ne_eq, List.append_cancel_left_eq]
          exact h
        have h2 : (a.1 == rel) = false := by simp [h]
        rw [h1, h2])]
  have := assoc_filesUnder fs.files src rel hnodup
  unfold FS.filesUnder
  cases hread : fs.read (src ++ rel) with
  | none =>
    have hfind : (fs.files.find? (fun e => e.1 == src ++ rel)).map (·.2) = none := hread
    rw [hfind] at this
    rw [Option.map_eq_none'] at this
    simp only [this]
  | some b =>
    have hfind : (fs.files.find? (fun e => e.1 == src ++ rel)).map (·.2) = some b := hread
    rw [hfind] at this
    rw [Option.map_eq_some'] at this
    obtain ⟨a, ha, hab⟩ := this
    simp only [ha, hab]

/-! ### Claim theorems -/

/-- C1: for every resource processed by the download verifier whose
fetched bytes have a SHA-1 hex digest different from the expected digest,
no file is written to the destination path and the run terminates fatally
with `HashMismatch`.  `rs1` are the resources already processed
(successfully), `r` the mismatching resource. -/
theorem c1_hash_mismatch_not_written
    (mp : String) (net : String → Option Bytes) (fs : FS)
    (rs1 rs2 : List Resource) (r : Resource) (data : Bytes)
    (hpre : (downloadMods mp net rs1 fs).1 = none)
    (hex : ((downloadMods mp net rs1 fs).2.1.mkdirp (destPath mp r).dropLast).pathExists
      (destPath mp r) = false)
    (hnet : net r.url = some data)
    (hmm : sha1hex data ≠ r.hash) :
    (downloadMods mp net (rs1 ++ r :: rs2) fs).1 = some Err.HashMismatch ∧
      (downloadMods mp net (rs1 ++ r :: rs2) fs).2.1.read (destPath mp r) = none := by
  unfold downloadMods at hpre hex ⊢
  unfold destPath at hex ⊢
  have hkey : downloadGo (installDirPath mp) net (r :: rs2)
      (downloadGo (installDirPath mp) net rs1 (fs.mkdirp (installDirPath mp))).2.1 =
      (some Err.HashMismatch,
        ((downloadGo (installDirPath mp) net rs1 (fs.mkdirp (installDirPath mp))).2.1).mkdirp
          (installDirPath mp ++ toPath r.path).dropLast, [r.url]) := by
    simp only [downloadGo]
    simp only [hex, Bool.false_eq_true, if_false]
    rw [hnet]
    simp only [if_neg hmm]
  constructor
  · rw [downloadGo_append]
    simp only [hpre, hkey]
  · rw [downloadGo_append]
    simp only [hpre, hkey]
    exact read_none_of_pathExists_false _ _ hex

theorem c1_witness :
    (downloadMods "Pack.zip" (fun _ => some []) ([] ++
        ⟨"https://cdn.modrinth.com/a.jar", "mods/a.jar", "deadbeef"⟩ :: []) ⟨[], []⟩).1 =
      some Err.HashMismatch ∧
    (downloadMods "Pack.zip" (fun _ => some []) ([] ++
        ⟨"https://cdn.modrinth.com/a.jar", "mods/a.jar", "deadbeef"⟩ :: []) ⟨[], []⟩).2.1.read
      (destPath "Pack.zip" ⟨"https://cdn.modrinth.com/a.jar", "mods/a.jar", "deadbeef"⟩) =
      none :=
  c1_hash_mismatch_not_written "Pack.zip" (fun _ => some []) ⟨[], []⟩ [] []
    ⟨"https://cdn.modrinth.com/a.jar", "mods/a.jar", "deadbeef"⟩ []
    (by decide) (by decide) rfl (by decide)

/-- C2 counterexample: the hash comparison is NOT case-insensitive.  The
SHA-1 digest of the empty byte sequence agrees with the expected digest
up to hex-letter case, yet the run aborts with `HashMismatch` and the
file is not written. -/
theorem c2_counterexample :
    sha1hex [] = "da39a3ee5e6b4b0d3255bfef95601890afd80709" ∧
      (downloadMods "Pack.zip" (fun _ => some []) [⟨"https://cdn.modrinth.com/a.jar",
        "mods/a.jar", "DA39A3EE5E6B4B0D3255BFEF95601890AFD80709"⟩] ⟨[], []⟩).1 =
        some Err.HashMismatch ∧
      (downloadMods "Pack.zip" (fun _ => some []) [⟨"https://cdn.modrinth.com/a.jar",
        "mods/a.jar", "DA39A3EE5E6B4B0D3255BFEF95601890AFD80709"⟩] ⟨[], []⟩).2.1.read
        (cwdPath ++ ["Pack", "install", "mods", "a.jar"]) = none := by
  exact ⟨by decide, by decide, by decide⟩

/-- C2 amended: the digest comparison is exact, case-sensitive string
equality between the lowercase hex digest of the fetched bytes and the
expected digest: the file is written exactly when they agree verbatim,
and any difference — including a difference only of hex-letter case —
terminates the run with `HashMismatch` without writing. -/
theorem c2_exact_hash_comparison (mp : String) (net : String → Option Bytes) (fs : FS)
    (r : Resource) (data : Bytes)
    (hnet : net r.url = some data)
    (hex : ((fs.mkdirp (installDirPath mp)).mkdirp (destPath mp r).dropLast).pathExists
      (destPath mp r) = false) :
    downloadMods mp net [r] fs =
      if sha1hex data = r.hash then
        (none,
         ((fs.mkdirp (installDirPath mp)).mkdirp (destPath mp r).dropLast).write
           (destPath mp r) data, [r.url])
      else
        (some Err.HashMismatch,
         (fs.mkdirp (installDirPath mp)).mkdirp (destPath mp r).dropLast, [r.url]) := by
  unfold downloadMods
  unfold destPath at hex ⊢
  simp only [downloadGo]
  simp only [hex, Bool.false_eq_true, if_false]
  rw [hnet]

theorem c2_witness :
    downloadMods "Pack.zip" (fun _ => some []) [⟨"https://cdn.modrinth.com/a.jar",
        "mods/a.jar", "da39a3ee5e6b4b0d3255bfef95601890afd80709"⟩] ⟨[], []⟩ =
      if sha1hex [] = "da39a3ee5e6b4b0d3255bfef95601890afd80709" then
        (none,
         ((FS.mkdirp ⟨[], []⟩ (installDirPath "Pack.zip")).mkdirp
            (destPath "Pack.zip" ⟨"https://cdn.modrinth.com/a.jar", "mods/a.jar",
              "da39a3ee5e6b4b0d3255bfef95601890afd80709"⟩).dropLast).write
           (destPath "Pack.zip" ⟨"https://cdn.modrinth.com/a.jar", "mods/a.jar",
              "da39a3ee5e6b4b0d3255bfef95601890afd80709"⟩) [], [
                "https://cdn.modrinth.com/a.jar"])
      else
        (some Err.HashMismatch,
         (FS.mkdirp ⟨[], []⟩ (installDirPath "Pack.zip")).mkdirp
            (destPath "Pack.zip" ⟨"https://cdn.modrinth.com/a.jar", "mods/a.jar",
              "da39a3ee5e6b4b0d3255bfef95601890afd80709"⟩).dropLast, [
                "https://cdn.modrinth.com/a.jar"]) :=
  c2_exact_hash_comparison "Pack.zip" (fun _ => some []) ⟨[], []⟩
    ⟨"https://cdn.modrinth.com/a.jar", "mods/a.jar",
      "da39a3ee5e6b4b0d3255bfef95601890afd80709"⟩ [] rfl (by decide)

/-! ### Resolution lemmas (for C3 and C4) -/

/-- A well-formed entry list with every first-URL host allow-listed
resolves to exactly one resource per entry, in order, verbatim. -/
lemma resolveList_ok_of_wf (l : List FileEntry)
    (hwf : ∀ e ∈ l, e.downloads ≠ [] ∧
      ((e.hashes.find? (fun x => x.1 == "sha1")).map (·.2)).isSome = true ∧
      ACCEPTED_DOMAINS.contains (netloc (e.downloads.headD "")) = true) :
    resolveList l = .ok (l.map (fun e =>
      ⟨e.downloads.headD "", e.path,
        ((e.hashes.find? (fun x => x.1 == "sha1")).map (·.2)).getD ""⟩)) := by
  induction l with
  | nil => rfl
  | cons f t ih =>
    obtain ⟨hne, hsha, hdom⟩ := hwf f (List.mem_cons_self f t)
    obtain ⟨u, us, hful⟩ : ∃ u us, f.downloads = u :: us := by
      cases hfd : f.downloads with
      | nil => exact absurd hfd hne
      | cons u us => exact ⟨u, us, rfl⟩
    obtain ⟨hv, hveq⟩ := Option.isSome_iff_exists.mp hsha
    have hdom2 : ACCEPTED_DOMAINS.contains (netloc u) = true := by
      rw [hful] at hdom
      simpa using hdom
    have hre : resolveEntry f = .ok ⟨u, f.path, hv⟩ := by
      simp only [resolveEntry, hful, List.head?_cons, hveq, hdom2, if_true]
    simp only [resolveList, hre, ih (fun e he => hwf e (List.mem_cons_of_mem f he)),
      List.map_cons, hful, List.headD_cons, hveq, Option.getD_some]

/-- When some entry's first-URL host is not allow-listed (and the entries
before it are structurally well-formed), the whole resolution aborts with
`UnapprovedDomain`. -/
lemma resolveList_unapproved (l : List FileEntry)
    (hwf : ∀ e ∈ l, e.downloads ≠ [] ∧
      ((e.hashes.find? (fun x => x.1 == "sha1")).map (·.2)).isSome = true)
    (hbad : ∃ e ∈ l, ∃ u, e.downloads.head? = some u ∧
      ACCEPTED_DOMAINS.contains (netloc u) = false) :
    resolveList l = .error .UnapprovedDomain := by
  induction l with
  | nil =>
    obtain ⟨e, he, _⟩ := hbad
    exact absurd he (List.not_mem_nil e)
  | cons f t ih =>
    obtain ⟨hne, hsha⟩ := hwf f (List.mem_cons_self f t)
    obtain ⟨u, us, hful⟩ : ∃ u us, f.downloads = u :: us := by
      cases hfd : f.downloads with
      | nil => exact absurd hfd hne
      | cons u us => exact ⟨u, us, rfl⟩
    obtain ⟨hv, hveq⟩ := Option.isSome_iff_exists.mp hsha
    by_cases hdom : ACCEPTED_DOMAINS.contains (netloc u) = true
    · have hre : resolveEntry f = .ok ⟨u, f.path, hv⟩ := by
        simp only [resolveEntry, hful, List.head?_cons, hveq, hdom, if_true]
      have hbadt : ∃ e ∈ t, ∃ u2, e.downloads.head? = some u2 ∧
          ACCEPTED_DOMAINS.contains (netloc u2) = false := by
        obtain ⟨e, he, u2, hu2, hd2⟩ := hbad
        rcases List.mem_cons.mp he with heq | het
        · subst heq
          rw [hful, List.head?_cons] at hu2
          rw [← Option.some.inj hu2] at hd2
          rw [hdom] at hd2
          exact absurd hd2 (by simp)
        · exact ⟨e, het, u2, hu2, hd2⟩
      simp only [resolveList, hre, ih (fun e he => hwf e (List.mem_cons_of_mem f he)) hbadt]
    · have hdom2 : ACCEPTED_DOMAINS.contains (netloc u) = false := by
        cases hc : ACCEPTED_DOMAINS.contains (netloc u)
        · rfl
        · exact absurd hc hdom
      have hre : resolveEntry f = .error .UnapprovedDomain := by
        simp only [resolveEntry, hful, List.head?_cons, hveq, hdom2, Bool.false_eq_true,
          if_false]
      simp only [resolveList, hre]

/-- C3: a manifest containing an entry whose first download URL's host is
not allow-listed makes resolution fail with `UnapprovedDomain`, and the
whole run performs no network fetch at all (empty fetch log). -/
theorem c3_unapproved_domain_aborts
    (mp : String) (isZip : Bool) (zipEntries : List (FPath × Bytes))
    (parse : Bytes → Option Manifest) (net : String → Option Bytes) (fs : FS)
    (data : Manifest) (fs1 : FS)
    (hload : loadModpack mp isZip zipEntries parse (fs.mkdirp cwdPath) = .ok (data, fs1))
    (hwf : ∀ e ∈ data.files, e.downloads ≠ [] ∧
      ((e.hashes.find? (fun x => x.1 == "sha1")).map (·.2)).isSome = true)
    (hbad : ∃ e ∈ data.files, ∃ u, e.downloads.head? = some u ∧
      ACCEPTED_DOMAINS.contains (netloc u) = false) :
    getMods data = .error .UnapprovedDomain ∧
      main mp isZip zipEntries parse net fs = (.error .UnapprovedDomain, []) := by
  have h1 : getMods data = .error .UnapprovedDomain :=
    resolveList_unapproved data.files hwf hbad
  refine ⟨h1, ?_⟩
  unfold main
  simp only [hload, h1]

theorem c3_witness :
    getMods ⟨1, [⟨["https://evil.example/a.jar"], "mods/a.jar", [("sha1", "aa")]⟩]⟩ =
        .error .UnapprovedDomain ∧
      main "Pack.zip" true [] (fun _ => some ⟨1, [⟨["https://evil.example/a.jar"],
          "mods/a.jar", [("sha1", "aa")]⟩]⟩) (fun _ => some [])
        ⟨[(["Pack.zip"], []), (cwdPath ++ ["Pack", "pack", "modrinth.index.json"], [1])],
          [cwdPath ++ ["Pack", "pack"]]⟩ = (.error .UnapprovedDomain, []) :=
  c3_unapproved_domain_aborts "Pack.zip" true []
    (fun _ => some ⟨1, [⟨["https://evil.example/a.jar"], "mods/a.jar", [("sha1", "aa")]⟩]⟩)
    (fun _ => some [])
    ⟨[(["Pack.zip"], []), (cwdPath ++ ["Pack", "pack", "modrinth.index.json"], [1])],
      [cwdPath ++ ["Pack", "pack"]]⟩
    ⟨1, [⟨["https://evil.example/a.jar"], "mods/a.jar", [("sha1", "aa")]⟩]⟩
    (FS.mkdirp ⟨[(["Pack.zip"], []), (cwdPath ++ ["Pack", "pack", "modrinth.index.json"], [1])],
      [cwdPath ++ ["Pack", "pack"]]⟩ cwdPath)
    (by decide) (by decide)
    ⟨⟨["https://evil.example/a.jar"], "mods/a.jar", [("sha1", "aa")]⟩, by decide,
      "https://evil.example/a.jar", by decide, by decide⟩

/-- C4: a version-1 manifest whose entries are well-formed and whose
first-URL hosts are all allow-listed resolves to exactly one resource per
entry, in manifest order, with the first URL, the path verbatim, and the
`sha1` digest verbatim. -/
theorem c4_resolution_one_per_entry (m : Manifest)
    (_hver : m.formatVersion = 1)
    (hwf : ∀ e ∈ m.files, e.downloads ≠ [] ∧
      ((e.hashes.find? (fun x => x.1 == "sha1")).map (·.2)).isSome = true ∧
      ACCEPTED_DOMAINS.contains (netloc (e.downloads.headD "")) = true) :
    getMods m = .ok (m.files.map (fun e =>
      ⟨e.downloads.headD "", e.path,
        ((e.hashes.find? (fun x => x.1 == "sha1")).map (·.2)).getD ""⟩)) :=
  resolveList_ok_of_wf m.files hwf

theorem c4_witness :
    getMods ⟨1, [⟨["https://cdn.modrinth.com/a.jar", "https://other.example/b.jar"],
        "mods/a.jar", [("sha512", "zz"), ("sha1", "abc")]⟩,
      ⟨["https://github.com/b.jar"], "mods/b.jar", [("sha1", "def")]⟩]⟩ =
      .ok [⟨"https://cdn.modrinth.com/a.jar", "mods/a.jar", "abc"⟩,
        ⟨"https://github.com/b.jar", "mods/b.jar", "def"⟩] :=
  c4_resolution_one_per_entry ⟨1, [⟨["https://cdn.modrinth.com/a.jar",
      "https://other.example/b.jar"], "mods/a.jar", [("sha512", "zz"), ("sha1", "abc")]⟩,
    ⟨["https://github.com/b.jar"], "mods/b.jar", [("sha1", "def")]⟩]⟩
    rfl (by decide)

/-- C5: a resource whose destination path already exists when the
download verifier reaches it is skipped: the step only records the parent
directory creation (no file change), contributes no fetch, and the
destination's content is unchanged by the rest of the run. -/
theorem c5_existing_destination_skipped
    (mp : String) (net : String → Option Bytes) (fs : FS)
    (rs1 rs2 : List Resource) (r : Resource)
    (hpre : (downloadMods mp net rs1 fs).1 = none)
    (hex : (downloadMods mp net rs1 fs).2.1.pathExists (destPath mp r) = true) :
    downloadMods mp net (rs1 ++ r :: rs2) fs =
      ((downloadGo (installDirPath mp) net rs2
          ((downloadMods mp net rs1 fs).2.1.mkdirp (destPath mp r).dropLast)).1,
       (downloadGo (installDirPath mp) net rs2
          ((downloadMods mp net rs1 fs).2.1.mkdirp (destPath mp r).dropLast)).2.1,
       (downloadMods mp net rs1 fs).2.2 ++
         (downloadGo (installDirPath mp) net rs2
           ((downloadMods mp net rs1 fs).2.1.mkdirp (destPath mp r).dropLast)).2.2) ∧
      ((downloadMods mp net rs1 fs).2.1.mkdirp (destPath mp r).dropLast).files =
        (downloadMods mp net rs1 fs).2.1.files ∧
      (downloadMods mp net (rs1 ++ r :: rs2) fs).2.1.read (destPath mp r) =
        (downloadMods mp net rs1 fs).2.1.read (destPath mp r) := by
  unfold downloadMods at hpre hex ⊢
  unfold destPath at hex ⊢
  have hex1 : ((downloadGo (installDirPath mp) net rs1
      (fs.mkdirp (installDirPath mp))).2.1.mkdirp
      (installDirPath mp ++ toPath r.path).dropLast).pathExists
      (installDirPath mp ++ toPath r.path) = true :=
    pathExists_mkdirp_of _ _ _ hex
  have hkey : downloadGo (installDirPath mp) net (r :: rs2)
      (downloadGo (installDirPath mp) net rs1 (fs.mkdirp (installDirPath mp))).2.1 =
      downloadGo (installDirPath mp) net rs2
        ((downloadGo (installDirPath mp) net rs1 (fs.mkdirp (installDirPath mp))).2.1.mkdirp
          (installDirPath mp ++ toPath r.path).dropLast) := by
    simp only [downloadGo, hex1, if_true]
  have hmain : downloadGo (installDirPath mp) net (rs1 ++ r :: rs2)
      (fs.mkdirp (installDirPath mp)) =
      ((downloadGo (installDirPath mp) net rs2
          ((downloadGo (installDirPath mp) net rs1
            (fs.mkdirp (installDirPath mp))).2.1.mkdirp
            (installDirPath mp ++ toPath r.path).dropLast)).1,
       (downloadGo (installDirPath mp) net rs2
          ((downloadGo (installDirPath mp) net rs1
            (fs.mkdirp (installDirPath mp))).2.1.mkdirp
            (installDirPath mp ++ toPath r.path).dropLast)).2.1,
       (downloadGo (installDirPath mp) net rs1 (fs.mkdirp (installDirPath mp))).2.2 ++
         (downloadGo (installDirPath mp) net rs2
           ((downloadGo (installDirPath mp) net rs1
             (fs.mkdirp (installDirPath mp))).2.1.mkdirp
             (installDirPath mp ++ toPath r.path).dropLast)).2.2) := by
    rw [downloadGo_append]
    simp only [hpre, hkey]
  refine ⟨hmain, rfl, ?_⟩
  rw [hmain]
  have hpres := downloadGo_preserves (installDirPath mp) net rs2
    ((downloadGo (installDirPath mp) net rs1 (fs.mkdirp (installDirPath mp))).2.1.mkdirp
      (installDirPath mp ++ toPath r.path).dropLast)
    (installDirPath mp ++ toPath r.path)
    (pathExists_mkdirp_of _ _ _ hex)
  exact hpres.1

theorem c5_witness :
    downloadMods "Pack.zip" (fun _ => some [1]) ([] ++
        ⟨"https://cdn.modrinth.com/a.jar", "mods/a.jar", "x"⟩ :: []) fs5c =
      ((downloadGo (installDirPath "Pack.zip") (fun _ => some [1]) []
          ((downloadMods "Pack.zip" (fun _ => some [1]) [] fs5c).2.1.mkdirp
            (destPath "Pack.zip" ⟨"https://cdn.modrinth.com/a.jar", "mods/a.jar",
              "x"⟩).dropLast)).1,
       (downloadGo (installDirPath "Pack.zip") (fun _ => some [1]) []
          ((downloadMods "Pack.zip" (fun _ => some [1]) [] fs5c).2.1.mkdirp
            (destPath "Pack.zip" ⟨"https://cdn.modrinth.com/a.jar", "mods/a.jar",
              "x"⟩).dropLast)).2.1,
       (downloadMods "Pack.zip" (fun _ => some [1]) [] fs5c).2.2 ++
         (downloadGo (installDirPath "Pack.zip") (fun _ => some [1]) []
           ((downloadMods "Pack.zip" (fun _ => some [1]) [] fs5c).2.1.mkdirp
             (destPath "Pack.zip" ⟨"https://cdn.modrinth.com/a.jar", "mods/a.jar",
               "x"⟩).dropLast)).2.2) ∧
      ((downloadMods "Pack.zip" (fun _ => some [1]) [] fs5c).2.1.mkdirp
          (destPath "Pack.zip" ⟨"https://cdn.modrinth.com/a.jar", "mods/a.jar",
            "x"⟩).dropLast).files =
        (downloadMods "Pack.zip" (fun _ => some [1]) [] fs5c).2.1.files ∧
      (downloadMods "Pack.zip" (fun _ => some [1]) ([] ++
          ⟨"https://cdn.modrinth.com/a.jar", "mods/a.jar", "x"⟩ :: []) fs5c).2.1.read
          (destPath "Pack.zip" ⟨"https://cdn.modrinth.com/a.jar", "mods/a.jar", "x"⟩) =
        (downloadMods "Pack.zip" (fun _ => some [1]) [] fs5c).2.1.read
          (destPath "Pack.zip" ⟨"https://cdn.modrinth.com/a.jar", "mods/a.jar", "x"⟩) :=
  c5_existing_destination_skipped "Pack.zip" (fun _ => some [1]) fs5c [] []
    ⟨"https://cdn.modrinth.com/a.jar", "mods/a.jar", "x"⟩ rfl (by decide)

/-- C10: allow-list enforcement is exact, case-sensitive string equality
on the URL's full netloc: any difference — an explicit port, userinfo, or
letter case — fails resolution with `UnapprovedDomain` even when the
underlying host is allow-listed. -/
theorem c10_allowlist_exact_netloc :
    (∀ (f : FileEntry) (url h : String), f.downloads.head? = some url →
        (f.hashes.find? (fun x => x.1 == "sha1")).map (·.2) = some h →
        ACCEPTED_DOMAINS.contains (netloc url) = false →
        resolveEntry f = .error .UnapprovedDomain) ∧
      netloc "https://cdn.modrinth.com:443/a.jar" = "cdn.modrinth.com:443" ∧
      resolveEntry ⟨["https://cdn.modrinth.com:443/a.jar"], "mods/a.jar", [("sha1", "aa")]⟩ =
        .error .UnapprovedDomain ∧
      resolveEntry ⟨["https://user@cdn.modrinth.com/a.jar"], "mods/a.jar", [("sha1", "aa")]⟩ =
        .error .UnapprovedDomain ∧
      resolveEntry ⟨["https://CDN.modrinth.com/a.jar"], "mods/a.jar", [("sha1", "aa")]⟩ =
        .error .UnapprovedDomain := by
  refine ⟨?_, by decide, by decide, by decide, by decide⟩
  intro f url h hu hh hd
  cases hfd : f.downloads with
  | nil => rw [hfd] at hu; exact Option.noConfusion hu
  | cons u us =>
    rw [hfd, List.head?_cons] at hu
    have huu : u = url := Option.some.inj hu
    rw [← huu] at hd
    simp only [resolveEntry, hfd, List.head?_cons, hh, hd, Bool.false_eq_true, if_false]

theorem c10_witness :
    resolveEntry ⟨["https://example.com/a.jar"], "m", [("sha1", "aa")]⟩ =
      .error .UnapprovedDomain :=
  c10_allowlist_exact_netloc.1 ⟨["https://example.com/a.jar"], "m", [("sha1", "aa")]⟩
    "https://example.com/a.jar" "aa" rfl rfl (by decide)

/-- A successful `readIndex` never modifies the filesystem. -/
lemma readIndex_ok_fs (mp : String) (parse : Bytes → Option Manifest) (fs : FS)
    (d : Manifest) (fs2 : FS) (h : readIndex mp parse fs = .ok (d, fs2)) : fs2 = fs := by
  unfold readIndex at h
  by_cases h1 : fs.pathExists (indexPath mp) = true
  · rw [if_neg (by rw [h1]; simp)] at h
    cases hr : fs.read (indexPath mp) with
    | none =>
      simp only [hr] at h
      exact Except.noConfusion h
    | some content =>
      simp only [hr] at h
      cases hp : parse content with
      | none =>
        simp only [hp] at h
        exact Except.noConfusion h
      | some data =>
        simp only [hp] at h
        by_cases hv : data.formatVersion ≠ 1
        · rw [if_pos hv] at h
          exact Except.noConfusion h
        · rw [if_neg hv] at h
          exact (congrArg Prod.snd (Except.ok.inj h)).symm
  · have h2 : fs.pathExists (indexPath mp) = false := by
      cases hc : fs.pathExists (indexPath mp)
      · rfl
      · exact absurd hc h1
    rw [if_pos (by rw [h2]; rfl)] at h
    exact Except.noConfusion h

/-- C6: when the extraction target directory (derived from the archive's
stem) already exists, the archive loader skips extraction entirely and
proceeds on the unchanged filesystem (a successful load returns the
filesystem as it was); extraction happens only when the directory does
not exist. -/
theorem c6_extract_skipped_if_dir_exists (mp : String) (isZip : Bool)
    (zipEntries : List (FPath × Bytes)) (parse : Bytes → Option Manifest) (fs : FS)
    (hmp : fs.pathExists (toPath mp) = true) (hzip : isZip = true) :
    (fs.pathExists (packDirPath mp) = true →
      loadModpack mp isZip zipEntries parse fs = readIndex mp parse fs ∧
      ∀ d fs2, loadModpack mp isZip zipEntries parse fs = .ok (d, fs2) → fs2 = fs) ∧
    (fs.pathExists (packDirPath mp) = false →
      loadModpack mp isZip zipEntries parse fs =
        readIndex mp parse (extractAll (fs.mkdirp (packDirPath mp)) (packDirPath mp)
          zipEntries)) := by
  have hload : loadModpack mp isZip zipEntries parse fs =
      readIndex mp parse (extractStep mp zipEntries fs) := by
    unfold loadModpack
    rw [hzip]
    rw [if_neg (by rw [hmp]; simp), if_neg (by simp)]
  constructor
  · intro hdir
    have hstep : extractStep mp zipEntries fs = fs := by
      unfold extractStep
      rw [if_pos hdir]
    refine ⟨by rw [hload, hstep], ?_⟩
    intro d fs2 hok
    rw [hload, hstep] at hok
    exact readIndex_ok_fs mp parse fs d fs2 hok
  · intro hdir
    have hstep : extractStep mp zipEntries fs =
        extractAll (fs.mkdirp (packDirPath mp)) (packDirPath mp) zipEntries := by
      unfold extractStep
      rw [if_neg (by rw [hdir]; simp)]
    rw [hload, hstep]

theorem c6_witness :
    loadModpack "Pack.zip" true [] (fun _ => none) fs6c =
      readIndex "Pack.zip" (fun _ => none) fs6c :=
  ((c6_extract_skipped_if_dir_exists "Pack.zip" true [] (fun _ => none) fs6c
    (by decide) rfl).1 (by decide)).1

/-- C7: a manifest whose format-version field is not 1 makes the archive
loader fail fatally with `UnsupportedVersion`, and the whole run performs
no resolution and no download (empty fetch log). -/
theorem c7_unsupported_version_fatal (mp : String) (isZip : Bool)
    (zipEntries : List (FPath × Bytes)) (parse : Bytes → Option Manifest)
    (net : String → Option Bytes) (fs : FS) (content : Bytes) (data : Manifest)
    (hmp : (fs.mkdirp cwdPath).pathExists (toPath mp) = true)
    (hzip : isZip = true)
    (hidx : (extractStep mp zipEntries (fs.mkdirp cwdPath)).read (indexPath mp) =
      some content)
    (hparse : parse content = some data)
    (hver : data.formatVersion ≠ 1) :
    loadModpack mp isZip zipEntries parse (fs.mkdirp cwdPath) =
        .error .UnsupportedVersion ∧
      main mp isZip zipEntries parse net fs = (.error .UnsupportedVersion, []) := by
  have hpe : (extractStep mp zipEntries (fs.mkdirp cwdPath)).pathExists (indexPath mp) =
      true := pathExists_of_read_some _ _ content hidx
  have hload : loadModpack mp isZip zipEntries parse (fs.mkdirp cwdPath) =
      .error .UnsupportedVersion := by
    unfold loadModpack
    rw [hzip]
    rw [if_neg (by rw [hmp]; simp), if_neg (by simp)]
    unfold readIndex
    rw [if_neg (by rw [hpe]; simp)]
    simp only [hidx, hparse, if_pos hver]
  refine ⟨hload, ?_⟩
  unfold main
  simp only [hload]

theorem c7_witness :
    loadModpack "Pack.zip" true [] (fun _ => some ⟨2, []⟩) (FS.mkdirp fs7c cwdPath) =
        .error .UnsupportedVersion ∧
      main "Pack.zip" true [] (fun _ => some ⟨2, []⟩) (fun _ => some []) fs7c =
        (.error .UnsupportedVersion, []) :=
  c7_unsupported_version_fatal "Pack.zip" true [] (fun _ => some ⟨2, []⟩)
    (fun _ => some []) fs7c [1] ⟨2, []⟩
    (by decide) rfl (by decide) rfl (by decide)

/-- C8 counterexample: a run that reaches the override overlay with no
overrides directory leaves the install root WITHOUT a copy of the
manifest — the manifest is not copied "regardless", because the early
return on a missing overrides directory skips the manifest copy too. -/
theorem c8_counterexample :
    copyOverrides "Pack.zip" fs8c = .ok fs8c ∧
      fs8c.read (installDirPath "Pack.zip" ++ ["modrinth.index.json"]) = none ∧
      fs8c.read (indexPath "Pack.zip") = some [2] := by
  exact ⟨by decide, by decide, by decide⟩

/-- C8 amended: the manifest is copied into the install root only when
the overrides directory is present; in that case, after a successful
overlay the install root does contain the pack manifest's content. -/
theorem c8_manifest_copy_needs_overrides (mp : String) (fs : FS) (c : Bytes)
    (hovr : fs.pathExists (overridesPath mp) = true)
    (hman : (copytree fs (overridesPath mp) (installDirPath mp)).read (indexPath mp) =
      some c) :
    copyOverrides mp fs = .ok ((copytree fs (overridesPath mp) (installDirPath mp)).write
        (installDirPath mp ++ ["modrinth.index.json"]) c) ∧
      ∀ fs2, copyOverrides mp fs = .ok fs2 →
        fs2.read (installDirPath mp ++ ["modrinth.index.json"]) = some c := by
  have h1 : copyOverrides mp fs = .ok ((copytree fs (overridesPath mp)
      (installDirPath mp)).write (installDirPath mp ++ ["modrinth.index.json"]) c) := by
    unfold copyOverrides
    rw [if_neg (by rw [hovr]; simp)]
    simp only [hman]
  refine ⟨h1, ?_⟩
  intro fs2 hok
  rw [h1] at hok
  rw [← Except.ok.inj hok]
  exact read_write_self _ _ _

theorem c8_witness :
    copyOverrides "Pack.zip" fs9w =
      .ok ((copytree fs9w (overridesPath "Pack.zip") (installDirPath "Pack.zip")).write
        (installDirPath "Pack.zip" ++ ["modrinth.index.json"]) [2]) ∧
      ∀ fs2, copyOverrides "Pack.zip" fs9w = .ok fs2 →
        fs2.read (installDirPath "Pack.zip" ++ ["modrinth.index.json"]) = some [2] :=
  c8_manifest_copy_needs_overrides "Pack.zip" fs9w [2] (by decide) (by decide)

/-- C9 counterexample: a relative path present both in the overrides
directory and in the install tree whose final installed content is NOT
the override's content: an override file named `modrinth.index.json`
(content `[1]`) is overwritten by the later manifest copy (content
`[2]`). -/
theorem c9_counterexample :
    fs9c.read (overridesPath "Pack.zip" ++ ["modrinth.index.json"]) = some [1] ∧
      fs9c.read (installDirPath "Pack.zip" ++ ["modrinth.index.json"]) = some [0] ∧
      (copyOverrides "Pack.zip" fs9c).map
        (fun fs2 => fs2.read (installDirPath "Pack.zip" ++ ["modrinth.index.json"])) =
        .ok (some [2]) := by
  exact ⟨by decide, by decide, by decide⟩

/-- C9 amended: overrides overwrite installed files for every relative
path except `modrinth.index.json` (which the subsequent manifest copy
overwrites); when the overrides directory is absent the copy step is
skipped without error. -/
theorem c9_overrides_overwrite_except_manifest (mp : String) (fs : FS) (rel : FPath)
    (b : Bytes)
    (hnodup : (fs.files.map Prod.fst).Nodup)
    (hovr : fs.pathExists (overridesPath mp) = true)
    (hrel : rel ≠ ["modrinth.index.json"])
    (hb : fs.read (overridesPath mp ++ rel) = some b) :
    (∀ fs2, copyOverrides mp fs = .ok fs2 →
        fs2.read (installDirPath mp ++ rel) = some b) ∧
      ∀ g : FS, g.pathExists (overridesPath mp) = false → copyOverrides mp g = .ok g := by
  constructor
  · intro fs2 hok
    unfold copyOverrides at hok
    rw [if_neg (by rw [hovr]; simp)] at hok
    cases hread : (copytree fs (overridesPath mp) (installDirPath mp)).read (indexPath mp) with
    | none =>
      simp only [hread] at hok
      exact Except.noConfusion hok
    | some c =>
      simp only [hread] at hok
      rw [← Except.ok.inj hok]
      have hne : installDirPath mp ++ rel ≠ installDirPath mp ++ ["modrinth.index.json"] := by
        intro hcontra
        exact hrel (List.append_cancel_left hcontra)
      rw [read_write_other _ _ _ _ hne]
      rw [read_copytree fs (overridesPath mp) (installDirPath mp) rel hnodup]
      simp only [hb]
  · intro g hg
    unfold copyOverrides
    rw [if_pos (by rw [hg]; rfl)]

theorem c9_witness :
    (∀ fs2, copyOverrides "Pack.zip" fs9w = .ok fs2 →
        fs2.read (installDirPath "Pack.zip" ++ ["config", "x.cfg"]) = some [9]) ∧
      ∀ g : FS, g.pathExists (overridesPath "Pack.zip") = false →
        copyOverrides "Pack.zip" g = .ok g :=
  c9_overrides_overwrite_except_manifest "Pack.zip" fs9w ["config", "x.cfg"] [9]
    (by decide) (by decide) (by decide) (by decide)

end LegacyInstall
